import Mathlib

/-
Verification development for the aggregate-operation execution engine
(include/aggregate_ops.h): the sequential CPU paths of the
HierarchicSoftmax, NegativeSampling, SkipGram and CBOW aggregate ops.

Modelling conventions:
* the element type T is modelled as ℚ (exact arithmetic);
* a matrix (syn0 / syn1 / syn1Neg) is a list of rows, each row a list of
  length vectorLength; row pointer arithmetic (base + row * vectorLength)
  becomes row extraction, and in-place row writes become row replacement;
* the C cast (int) of a value of type T truncates toward zero, modelled
  by truncQ;
* unsigned long long arithmetic is ℕ arithmetic reduced mod 2 ^ 64;
* a read of expTable is Option-valued: an out-of-bounds read (undefined
  behaviour in the C source) makes the kernel return none.
-/

/-- Truncation toward zero of a rational, the semantics of the C cast
from the element type T to int. -/
def truncQ (q : ℚ) : ℤ :=
  if q < 0 then ⌈q⌉ else ⌊q⌋

/-- The sequential dot-product reduction loop shared by the kernels:
dot += syn0[x] * syn1[x] over the whole row. -/
def dotList (x y : List ℚ) : ℚ :=
  (List.zipWith (fun a b => a * b) x y).sum

/-- The bucket index of the sigmoid lookup table:
idx = (int)((dot + HS_MAX_EXP) * ((T) expLength / HS_MAX_EXP / 2.0))
with HS_MAX_EXP = 6.0. -/
def expIndex (expLength : ℕ) (dot : ℚ) : ℤ :=
  truncQ ((dot + 6) * ((expLength : ℚ) / 6 / 2))

/-- The three rows a HierarchicSoftmax invocation touches: the embedding
row (syn0), the tree-node row (syn1) and the gradient accumulator
(neu1e). -/
structure HSRow where
  syn0 : List ℚ
  syn1 : List ℚ
  neu1e : List ℚ
deriving Repr, DecidableEq

/-- Sequential HierarchicSoftmax::executeAggregate.  Computes the dot
product of the embedding row and the tree-node row, returns unchanged
when the dot product saturates (dot < -6 or dot >= 6) or when the
bucket index clamps (idx >= expLength); otherwise reads
f = expTable[idx], forms g = (1 - code - f) * alpha and performs the two
axpy loops neu1e[x] += g * syn1[x] and syn1[x] += g * syn0[x]. -/
def hierarchicSoftmax (expLength : ℕ) (code : ℤ) (alpha : ℚ)
    (expTable : List ℚ) (s : HSRow) : Option HSRow :=
  let dot := dotList s.syn0 s.syn1
  if dot < -6 ∨ 6 ≤ dot then
    some s
  else
    let idx := expIndex expLength dot
    if (expLength : ℤ) ≤ idx then
      some s
    else
      (expTable[idx.toNat]?).map fun f =>
        let g := (1 - (code : ℚ) - f) * alpha
        { syn0 := s.syn0
          syn1 := List.zipWith (fun a b => g * a + b) s.syn0 s.syn1
          neu1e := List.zipWith (fun a b => g * a + b) s.syn1 s.neu1e }

/-- The three rows a NegativeSampling invocation touches: the embedding
row (syn0), the target row (syn1Neg) and the gradient accumulator
(neu1e). -/
structure NSRow where
  syn0 : List ℚ
  syn1Neg : List ℚ
  neu1e : List ℚ
deriving Repr, DecidableEq

/-- The two axpy loops at the end of NegativeSampling::executeAggregate:
neu1e[x] += g * syn1Neg[x] and syn1Neg[x] += g * syn0[x]. -/
def nsAxpy (g : ℚ) (s : NSRow) : NSRow :=
  { syn0 := s.syn0
    syn1Neg := List.zipWith (fun a b => g * a + b) s.syn0 s.syn1Neg
    neu1e := List.zipWith (fun a b => g * a + b) s.syn1Neg s.neu1e }

/-- Sequential NegativeSampling::executeAggregate.  The gradient scalar
g has three cases on the dot product: above 6, g = (code - 1) * alpha;
below -6, g = (code - 0) * alpha; otherwise g = (code - expTable[idx])
* alpha, returning unchanged when idx >= expLength.  When g is formed,
both axpy loops run. -/
def negativeSampling (expLength : ℕ) (code : ℤ) (alpha : ℚ)
    (expTable : List ℚ) (s : NSRow) : Option NSRow :=
  let dot := dotList s.syn0 s.syn1Neg
  if 6 < dot then
    some (nsAxpy (((code : ℚ) - 1) * alpha) s)
  else if dot < -6 then
    some (nsAxpy (((code : ℚ) - 0) * alpha) s)
  else
    let idx := expIndex expLength dot
    if (expLength : ℤ) ≤ idx then
      some s
    else
      (expTable[idx.toNat]?).map fun f => nsAxpy (((code : ℚ) - f) * alpha) s

/-- Row extraction: the row pointer base + i * vectorLength into a
row-major matrix. -/
def getRow (m : List (List ℚ)) (i : ℕ) : List ℚ :=
  m.getD i []

/-- In-place overwrite of row i of a row-major matrix. -/
def setRow (m : List (List ℚ)) (i : ℕ) (r : List ℚ) : List (List ℚ) :=
  m.set i r

/-- One step of the 64-bit linear congruential generator:
next_random = next_random * 25214903917 + 11 in unsigned long long
arithmetic. -/
def lcgNext (n : ℕ) : ℕ :=
  (n * 25214903917 + 11) % 2 ^ 64

/-- The three caller-owned matrices the orchestrators mutate. -/
structure AggState where
  syn0 : List (List ℚ)
  syn1 : List (List ℚ)
  syn1Neg : List (List ℚ)
deriving Repr, DecidableEq

/-- One negative-sampling candidate draw, the lines shared verbatim by
the SkipGram and CBOW sequential loops: advance next_random, read
negTable[(next_random >> 16) % negTableLength] (a value of type T,
converted to int), and replace an index <= 0 or >= vocabSize by the
fallback next_random % (vocabSize - 1) + 1.  Returns the advanced
random state and the candidate. -/
def ngDraw (negTable : List ℚ) (vocabSize negTableLength : ℕ) (nr : ℕ) :
    ℕ × ℤ :=
  let nr' := lcgNext nr
  let t := truncQ (negTable.getD ((nr' >>> 16) % negTableLength) 0)
  let t' := if t ≤ 0 ∨ (vocabSize : ℤ) ≤ t
    then ((nr' % (vocabSize - 1) : ℕ) : ℤ) + 1 else t
  (nr', t')

/-- The sequence of candidates produced by n successive draws from a
given random state: a pure function of the state and the tables. -/
def ngDrawSeq (negTable : List ℚ) (vocabSize negTableLength : ℕ) :
    ℕ → ℕ → List ℤ
  | _, 0 => []
  | nr, Nat.succ n =>
    let d := ngDraw negTable vocabSize negTableLength nr
    d.2 :: ngDrawSeq negTable vocabSize negTableLength d.1 n

/-- The scalar inputs of SkipGram::executeAggregate
(indexArguments[0..7], the two int arrays, and realArguments). -/
structure SkipGramParams where
  syn0Row : ℕ
  vectorLength : ℕ
  hsRounds : ℕ
  ngRounds : ℕ
  expLength : ℕ
  vocabSize : ℕ
  ngStarter : ℤ
  negTableLength : ℕ
  idxSyn1 : List ℕ
  codes : List ℤ
  alpha : ℚ
  seed : ℕ
deriving Repr, DecidableEq

/-- One hierarchical-softmax round of SkipGram: pick the syn1 row
idxSyn1[r] and the code codes[r], run the HierarchicSoftmax kernel on
(center syn0 row, syn1 row, neu1e), and write the updated syn1 row
back. -/
def sgHsStep (expTable : List ℚ) (p : SkipGramParams)
    (acc : AggState × List ℚ) (r : ℕ) : Option (AggState × List ℚ) :=
  let row := p.idxSyn1.getD r 0
  let code := p.codes.getD r 0
  (hierarchicSoftmax p.expLength code p.alpha expTable
      ⟨getRow acc.1.syn0 p.syn0Row, getRow acc.1.syn1 row, acc.2⟩).map
    fun out =>
      ({ acc.1 with syn1 := setRow acc.1.syn1 row out.syn1 }, out.neu1e)

/-- Sequential execution of a list of hierarchical-softmax rounds. -/
def sgHsRun (expTable : List ℚ) (p : SkipGramParams)
    (acc : AggState × List ℚ) : List ℕ → Option (AggState × List ℚ)
  | [] => some acc
  | r :: rs =>
    (sgHsStep expTable p acc r).bind fun a => sgHsRun expTable p a rs

/-- The hierarchical-softmax phase of SkipGram: the loop
for r in [0, hsRounds), guarded by hsRounds > 0. -/
def sgHsLoop (expTable : List ℚ) (p : SkipGramParams) (s : AggState)
    (neu1e : List ℚ) : Option (AggState × List ℚ) :=
  if 0 < p.hsRounds then
    sgHsRun expTable p (s, neu1e) (List.range p.hsRounds)
  else
    some (s, neu1e)

/-- Accumulator of the SkipGram negative-sampling loop.  Besides the
mutable program state (matrices, neu1e, next_random, target) it keeps
two ghost traces used only to state properties: drawn records every
candidate drawn at rounds r >= 1 (after the in-range fallback), and
invocations records the (code, target) of every NegativeSampling
invocation. -/
structure SgNgAcc where
  state : AggState
  neu1e : List ℚ
  next_random : ℕ
  target : ℤ
  drawn : List ℤ
  invocations : List (ℤ × ℤ)
deriving Repr, DecidableEq

/-- One round of the SkipGram negative-sampling loop.  Round 0 invokes
the NegativeSampling kernel on the ngStarter target with code 1; a
round r >= 1 draws a candidate, skips the kernel when the candidate
equals ngStarter, and otherwise invokes the kernel with code 0 and
writes the updated syn1Neg row back. -/
def sgNgStep (expTable negTable : List ℚ) (p : SkipGramParams)
    (acc : SgNgAcc) (r : ℕ) : Option SgNgAcc :=
  if r = 0 then
    (negativeSampling p.expLength 1 p.alpha expTable
        ⟨getRow acc.state.syn0 p.syn0Row,
         getRow acc.state.syn1Neg acc.target.toNat, acc.neu1e⟩).map
      fun out =>
        { acc with
          state := { acc.state with
                     syn1Neg := setRow acc.state.syn1Neg
                       acc.target.toNat out.syn1Neg }
          neu1e := out.neu1e
          invocations := acc.invocations ++ [(1, acc.target)] }
  else
    let d := ngDraw negTable p.vocabSize p.negTableLength acc.next_random
    if d.2 = p.ngStarter then
      some { acc with
             next_random := d.1
             target := d.2
             drawn := acc.drawn ++ [d.2] }
    else
      (negativeSampling p.expLength 0 p.alpha expTable
          ⟨getRow acc.state.syn0 p.syn0Row,
           getRow acc.state.syn1Neg d.2.toNat, acc.neu1e⟩).map
        fun out =>
          { acc with
            state := { acc.state with
                       syn1Neg := setRow acc.state.syn1Neg
                         d.2.toNat out.syn1Neg }
            neu1e := out.neu1e
            next_random := d.1
            target := d.2
            drawn := acc.drawn ++ [d.2]
            invocations := acc.invocations ++ [(0, d.2)] }

/-- Sequential execution of a list of negative-sampling rounds. -/
def sgNgRun (expTable negTable : List ℚ) (p : SkipGramParams)
    (acc : SgNgAcc) : List ℕ → Option SgNgAcc
  | [] => some acc
  | r :: rs =>
    (sgNgStep expTable negTable p acc r).bind
      fun a => sgNgRun expTable negTable p a rs

/-- The negative-sampling phase of SkipGram: target is initialized to
ngStarter and next_random to the seed, then the loop runs for
r in [0, ngRounds + 1), guarded by ngRounds > 0. -/
def sgNgLoop (expTable negTable : List ℚ) (p : SkipGramParams)
    (s : AggState) (neu1e : List ℚ) : Option SgNgAcc :=
  if 0 < p.ngRounds then
    sgNgRun expTable negTable p ⟨s, neu1e, p.seed, p.ngStarter, [], []⟩
      (List.range (p.ngRounds + 1))
  else
    some ⟨s, neu1e, p.seed, p.ngStarter, [], []⟩

/-- Sequential SkipGram::executeAggregate: zero neu1e, run the
hierarchical-softmax rounds, run the negative-sampling rounds, and add
neu1e into the center syn0 row once. -/
def skipGram (expTable negTable : List ℚ) (p : SkipGramParams)
    (s : AggState) : Option AggState :=
  let neu1e : List ℚ := List.replicate p.vectorLength 0
  (sgHsLoop expTable p s neu1e).bind fun a =>
    (sgNgLoop expTable negTable p a.1 a.2).map fun b =>
      { b.state with
        syn0 := setRow b.state.syn0 p.syn0Row
          (List.zipWith (fun x y => x + y)
            (getRow b.state.syn0 p.syn0Row) b.neu1e) }

/-- The scalar inputs of CBOW::executeAggregate (indexArguments[0..8],
the three int arrays, and realArguments). -/
structure CBOWParams where
  vectorLength : ℕ
  hsRounds : ℕ
  ngRounds : ℕ
  expLength : ℕ
  vocabSize : ℕ
  ngStarter : ℤ
  negTableLength : ℕ
  idxSyn0Length : ℕ
  initialIdx : ℤ
  idxSyn0 : List ℕ
  idxSyn1 : List ℕ
  codes : List ℤ
  alpha : ℚ
  seed : ℕ
deriving Repr, DecidableEq

/-- The list of context-row indices a CBOW invocation actually uses:
idxSyn0[c] for c in [0, idxSyn0Length). -/
def cbowIdxList (p : CBOWParams) : List ℕ :=
  (List.range p.idxSyn0Length).map fun c => p.idxSyn0.getD c 0

/-- The CBOW context-building phase: sum the context-word rows of syn0
into neu1 (initialized to zero), then divide every element by
idxSyn0Length — the division loop is guarded by idxSyn0Length > 0 and
skipped entirely for an empty context window. -/
def cbowNeu1 (p : CBOWParams) (syn0 : List (List ℚ)) : List ℚ :=
  let summed := (List.range p.idxSyn0Length).foldl
    (fun acc c =>
      List.zipWith (fun a b => a + b) acc (getRow syn0 (p.idxSyn0.getD c 0)))
    (List.replicate p.vectorLength 0)
  if 0 < p.idxSyn0Length then
    summed.map fun q => q / (p.idxSyn0Length : ℚ)
  else
    summed

/-- Accumulator of the CBOW round loops: the matrices, the averaged
context vector neu1 (the embedding side of every kernel call), the
gradient accumulator neu1e, the random state and running target, and
the same two ghost traces as SkipGram. -/
structure CbAcc where
  state : AggState
  neu1 : List ℚ
  neu1e : List ℚ
  next_random : ℕ
  target : ℤ
  drawn : List ℤ
  invocations : List (ℤ × ℤ)
deriving Repr, DecidableEq

/-- One hierarchical-softmax round of CBOW: identical to the SkipGram
round except that neu1 plays the role of the embedding row. -/
def cbowHsStep (expTable : List ℚ) (p : CBOWParams)
    (acc : CbAcc) (i : ℕ) : Option CbAcc :=
  let row := p.idxSyn1.getD i 0
  let code := p.codes.getD i 0
  (hierarchicSoftmax p.expLength code p.alpha expTable
      ⟨acc.neu1, getRow acc.state.syn1 row, acc.neu1e⟩).map
    fun out =>
      { acc with
        state := { acc.state with syn1 := setRow acc.state.syn1 row out.syn1 }
        neu1 := out.syn0
        neu1e := out.neu1e }

/-- Sequential execution of a list of CBOW hierarchical-softmax
rounds. -/
def cbowHsRun (expTable : List ℚ) (p : CBOWParams)
    (acc : CbAcc) : List ℕ → Option CbAcc
  | [] => some acc
  | i :: is =>
    (cbowHsStep expTable p acc i).bind fun a => cbowHsRun expTable p a is

/-- The hierarchical-softmax phase of CBOW, guarded by hsRounds > 0. -/
def cbowHsLoop (expTable : List ℚ) (p : CBOWParams) (acc : CbAcc) :
    Option CbAcc :=
  if 0 < p.hsRounds then
    cbowHsRun expTable p acc (List.range p.hsRounds)
  else
    some acc

/-- One round of the CBOW negative-sampling loop: identical to the
SkipGram round except that neu1 plays the role of the embedding row. -/
def cbowNgStep (expTable negTable : List ℚ) (p : CBOWParams)
    (acc : CbAcc) (i : ℕ) : Option CbAcc :=
  if i = 0 then
    (negativeSampling p.expLength 1 p.alpha expTable
        ⟨acc.neu1, getRow acc.state.syn1Neg acc.target.toNat,
         acc.neu1e⟩).map
      fun out =>
        { acc with
          state := { acc.state with
                     syn1Neg := setRow acc.state.syn1Neg
                       acc.target.toNat out.syn1Neg }
          neu1 := out.syn0
          neu1e := out.neu1e
          invocations := acc.invocations ++ [(1, acc.target)] }
  else
    let d := ngDraw negTable p.vocabSize p.negTableLength acc.next_random
    if d.2 = p.ngStarter then
      some { acc with
             next_random := d.1
             target := d.2
             drawn := acc.drawn ++ [d.2] }
    else
      (negativeSampling p.expLength 0 p.alpha expTable
          ⟨acc.neu1, getRow acc.state.syn1Neg d.2.toNat, acc.neu1e⟩).map
        fun out =>
          { acc with
            state := { acc.state with
                       syn1Neg := setRow acc.state.syn1Neg
                         d.2.toNat out.syn1Neg }
            neu1 := out.syn0
            neu1e := out.neu1e
            next_random := d.1
            target := d.2
            drawn := acc.drawn ++ [d.2]
            invocations := acc.invocations ++ [(0, d.2)] }

/-- Sequential execution of a list of CBOW negative-sampling rounds. -/
def cbowNgRun (expTable negTable : List ℚ) (p : CBOWParams)
    (acc : CbAcc) : List ℕ → Option CbAcc
  | [] => some acc
  | i :: is =>
    (cbowNgStep expTable negTable p acc i).bind
      fun a => cbowNgRun expTable negTable p a is

/-- The negative-sampling phase of CBOW: the loop for
i in [0, ngRounds + 1), guarded by ngRounds > 0. -/
def cbowNgLoop (expTable negTable : List ℚ) (p : CBOWParams)
    (acc : CbAcc) : Option CbAcc :=
  if 0 < p.ngRounds then
    cbowNgRun expTable negTable p acc (List.range (p.ngRounds + 1))
  else
    some acc

/-- The CBOW scatter phase: add neu1e into syn0 row idxSyn0[c] for
every c in [0, idxSyn0Length). -/
def cbowPropagate (p : CBOWParams) (syn0 : List (List ℚ))
    (neu1e : List ℚ) : List (List ℚ) :=
  (List.range p.idxSyn0Length).foldl
    (fun m c =>
      let i := p.idxSyn0.getD c 0
      setRow m i (List.zipWith (fun a b => a + b) (getRow m i) neu1e))
    syn0

/-- Sequential CBOW::executeAggregate: build and average neu1, zero
neu1e, run the hierarchical-softmax and negative-sampling rounds with
neu1 as the embedding side, then scatter neu1e into every context-word
row of syn0. -/
def cbow (expTable negTable : List ℚ) (p : CBOWParams) (s : AggState) :
    Option AggState :=
  let neu1 := cbowNeu1 p s.syn0
  let neu1e : List ℚ := List.replicate p.vectorLength 0
  let acc : CbAcc := ⟨s, neu1, neu1e, p.seed, p.ngStarter, [], []⟩
  (cbowHsLoop expTable p acc).bind fun a =>
    (cbowNgLoop expTable negTable p a).map fun b =>
      { b.state with syn0 := cbowPropagate p b.state.syn0 b.neu1e }

example : dotList [1, 2] [3, 4] = 11 := by norm_num [dotList]
example : truncQ (7 / 6) = 1 := by norm_num [truncQ]
example : expIndex 2 1 = 1 := by norm_num [expIndex, truncQ]
example :
    hierarchicSoftmax 2 1 1 [1/2, 3/4] ⟨[1], [1], [0]⟩
      = some ⟨[1], [1/4], [-3/4]⟩ := by
  norm_num [hierarchicSoftmax, dotList, expIndex, truncQ]
example :
    hierarchicSoftmax 2 1 1 [1/2, 3/4] ⟨[7], [1], [0]⟩
      = some ⟨[7], [1], [0]⟩ := by
  norm_num [hierarchicSoftmax, dotList, expIndex, truncQ]
example :
    negativeSampling 1 0 1 [1/2] ⟨[-6], [1], [0]⟩
      = some ⟨[-6], [4], [-1/2]⟩ := by
  norm_num [negativeSampling, nsAxpy, dotList, expIndex, truncQ]
example :
    negativeSampling 1 0 1 [1/2] ⟨[6], [1], [0]⟩
      = some ⟨[6], [1], [0]⟩ := by
  norm_num [negativeSampling, nsAxpy, dotList, expIndex, truncQ]

/-- Elementwise reading of a zipWith under in-bounds indices. -/
lemma getD_zipWith (f : ℚ → ℚ → ℚ) (a b : List ℚ) (i : ℕ)
    (ha : i < a.length) (hb : i < b.length) :
    (List.zipWith f a b).getD i 0 = f (a.getD i 0) (b.getD i 0) := by
  rw [List.getD_eq_getElem?_getD, List.getElem?_zipWith,
    List.getElem?_eq_getElem ha, List.getElem?_eq_getElem hb]
  simp [List.getD_eq_getElem?_getD,
    List.getElem?_eq_getElem ha, List.getElem?_eq_getElem hb]

/-- Adding a zero vector elementwise is the identity. -/
lemma zipWith_add_replicate_zero (l : List ℚ) :
    List.zipWith (fun a b => a + b) l (List.replicate l.length 0) = l := by
  induction l with
  | nil => rfl
  | cons x xs ih => simpa [List.replicate_succ] using ih

/-- Writing back the row just read is a no-op. -/
lemma setRow_getRow_self (m : List (List ℚ)) (i : ℕ) (h : i < m.length) :
    setRow m i (getRow m i) = m := by
  apply List.ext_getElem?
  intro n
  by_cases hn : i = n
  · subst hn
    rw [setRow, List.getElem?_set_self h, getRow, List.getD_eq_getElem?_getD,
      List.getElem?_eq_getElem h]
    rfl
  · rw [setRow, List.getElem?_set_ne hn]

/-- C1: for the sequential HierarchicSoftmax kernel on rows of common
length: the input embedding row is never modified; if the dot product
saturates (dot < -6 or 6 <= dot) or the bucket index clamps
(expLength <= idx), neither neu1e nor the tree-node row is modified;
otherwise, with f = expTable[idx] and g = (1 - code - f) * alpha, every
element i gets neu1e[i] += g * syn1[i] and syn1[i] += g * syn0[i]; and
on the non-saturated range the truncating bucket index of the code
agrees with floor((dot + 6) * expLength / 12). -/
theorem claim_C1 (expLength : ℕ) (code : ℤ) (alpha : ℚ)
    (expTable : List ℚ) (syn0 syn1 neu1e : List ℚ) (n : ℕ)
    (h0 : syn0.length = n) (h1 : syn1.length = n) (he : neu1e.length = n) :
    (∀ out, hierarchicSoftmax expLength code alpha expTable
        ⟨syn0, syn1, neu1e⟩ = some out → out.syn0 = syn0)
    ∧ ((dotList syn0 syn1 < -6 ∨ 6 ≤ dotList syn0 syn1 ∨
          (expLength : ℤ) ≤ expIndex expLength (dotList syn0 syn1)) →
        hierarchicSoftmax expLength code alpha expTable ⟨syn0, syn1, neu1e⟩
          = some ⟨syn0, syn1, neu1e⟩)
    ∧ (∀ f, ¬ (dotList syn0 syn1 < -6 ∨ 6 ≤ dotList syn0 syn1) →
        expIndex expLength (dotList syn0 syn1) < (expLength : ℤ) →
        expTable[(expIndex expLength (dotList syn0 syn1)).toNat]? = some f →
        ∀ out, hierarchicSoftmax expLength code alpha expTable
            ⟨syn0, syn1, neu1e⟩ = some out →
          ∀ i, i < n →
            out.neu1e.getD i 0
              = (1 - (code : ℚ) - f) * alpha * syn1.getD i 0 + neu1e.getD i 0
            ∧ out.syn1.getD i 0
              = (1 - (code : ℚ) - f) * alpha * syn0.getD i 0
                  + syn1.getD i 0)
    ∧ (-6 ≤ dotList syn0 syn1 →
        expIndex expLength (dotList syn0 syn1)
          = ⌊(dotList syn0 syn1 + 6) * (expLength : ℚ) / 12⌋) := by
  refine ⟨?_, ?_, ?_, ?_⟩
  · intro out hout
    unfold hierarchicSoftmax at hout
    dsimp only at hout
    split_ifs at hout with hc1 hc2
    · cases hout
      rfl
    · cases hout
      rfl
    · rcases Option.map_eq_some'.mp hout with ⟨f, _, hf⟩
      rw [← hf]
  · intro hskip
    unfold hierarchicSoftmax
    dsimp only
    split_ifs with hc1 hc2
    · rfl
    · rfl
    · rcases hskip with h | h | h
      · exact absurd (Or.inl h) hc1
      · exact absurd (Or.inr h) hc1
      · exact absurd h (not_le.mpr (lt_of_not_le hc2))
  · intro f hrange hidx hf out hout i hi
    unfold hierarchicSoftmax at hout
    dsimp only at hout
    split_ifs at hout with hc1
    · exact absurd hc1 (not_le.mpr hidx)
    · rw [hf] at hout
      simp only [Option.map_some'] at hout
      cases hout
      constructor
      · rw [getD_zipWith _ _ _ _ (by omega) (by omega)]
      · rw [getD_zipWith _ _ _ _ (by omega) (by omega)]
  · intro hge
    unfold expIndex truncQ
    have hnn : 0 ≤ (dotList syn0 syn1 + 6) * ((expLength : ℚ) / 6 / 2) :=
      mul_nonneg (by linarith) (by positivity)
    rw [if_neg (not_lt.mpr hnn),
      show (dotList syn0 syn1 + 6) * ((expLength : ℚ) / 6 / 2)
        = (dotList syn0 syn1 + 6) * (expLength : ℚ) / 12 from by ring]

/-- Witness for C1: a concrete saturated input (dot = 7) is left
unchanged by the kernel. -/
theorem claim_C1_witness :
    hierarchicSoftmax 2 1 1 [1/2, 3/4] ⟨[7], [1], [0]⟩
      = some ⟨[7], [1], [0]⟩ := by
  refine (claim_C1 2 1 1 [1/2, 3/4] [7] [1] [0] 1 rfl rfl rfl).2.1 ?_
  refine Or.inr (Or.inl ?_)
  norm_num [dotList]

/-- C2: for the sequential NegativeSampling kernel the gradient scalar
g has exactly three cases on the dot product: above 6,
g = (code - 1) * alpha; below -6, g = (code - 0) * alpha; otherwise
g = (code - expTable[idx]) * alpha, and the clamp-and-skip rule
(idx >= expLength means no update) applies only in the middle case;
when an update happens, every element i gets
neu1e[i] += g * syn1Neg[i] and syn1Neg[i] += g * syn0[i]; on the
non-saturated range the truncating bucket index of the code agrees with
floor((dot + 6) * expLength / 12). -/
theorem claim_C2 (expLength : ℕ) (code : ℤ) (alpha : ℚ)
    (expTable : List ℚ) (syn0 syn1Neg neu1e : List ℚ) (n : ℕ)
    (h0 : syn0.length = n) (h1 : syn1Neg.length = n)
    (he : neu1e.length = n) :
    (6 < dotList syn0 syn1Neg →
      negativeSampling expLength code alpha expTable ⟨syn0, syn1Neg, neu1e⟩
        = some (nsAxpy (((code : ℚ) - 1) * alpha) ⟨syn0, syn1Neg, neu1e⟩))
    ∧ (dotList syn0 syn1Neg < -6 →
      negativeSampling expLength code alpha expTable ⟨syn0, syn1Neg, neu1e⟩
        = some (nsAxpy (((code : ℚ) - 0) * alpha) ⟨syn0, syn1Neg, neu1e⟩))
    ∧ (-6 ≤ dotList syn0 syn1Neg → dotList syn0 syn1Neg ≤ 6 →
        (expLength : ℤ) ≤ expIndex expLength (dotList syn0 syn1Neg) →
        negativeSampling expLength code alpha expTable ⟨syn0, syn1Neg, neu1e⟩
          = some ⟨syn0, syn1Neg, neu1e⟩)
    ∧ (∀ f, -6 ≤ dotList syn0 syn1Neg → dotList syn0 syn1Neg ≤ 6 →
        expIndex expLength (dotList syn0 syn1Neg) < (expLength : ℤ) →
        expTable[(expIndex expLength (dotList syn0 syn1Neg)).toNat]?
          = some f →
        negativeSampling expLength code alpha expTable ⟨syn0, syn1Neg, neu1e⟩
          = some (nsAxpy (((code : ℚ) - f) * alpha) ⟨syn0, syn1Neg, neu1e⟩))
    ∧ (∀ g i, i < n →
        (nsAxpy g ⟨syn0, syn1Neg, neu1e⟩).neu1e.getD i 0
          = g * syn1Neg.getD i 0 + neu1e.getD i 0
        ∧ (nsAxpy g ⟨syn0, syn1Neg, neu1e⟩).syn1Neg.getD i 0
          = g * syn0.getD i 0 + syn1Neg.getD i 0)
    ∧ (-6 ≤ dotList syn0 syn1Neg →
        expIndex expLength (dotList syn0 syn1Neg)
          = ⌊(dotList syn0 syn1Neg + 6) * (expLength : ℚ) / 12⌋) := by
  refine ⟨?_, ?_, ?_, ?_, ?_, ?_⟩
  · intro h
    unfold negativeSampling
    dsimp only
    rw [if_pos h]
  · intro h
    unfold negativeSampling
    dsimp only
    rw [if_neg (not_lt.mpr (by linarith)), if_pos h]
  · intro hge hle hidx
    unfold negativeSampling
    dsimp only
    rw [if_neg (not_lt.mpr hle), if_neg (not_lt.mpr hge), if_pos hidx]
  · intro f hge hle hidx hf
    unfold negativeSampling
    dsimp only
    rw [if_neg (not_lt.mpr hle), if_neg (not_lt.mpr hge),
      if_neg (not_le.mpr hidx), hf]
    rfl
  · intro g i hi
    unfold nsAxpy
    dsimp only
    constructor
    · rw [getD_zipWith _ _ _ _ (by omega) (by omega)]
    · rw [getD_zipWith _ _ _ _ (by omega) (by omega)]
  · intro hge
    unfold expIndex truncQ
    have hnn : 0 ≤ (dotList syn0 syn1Neg + 6) * ((expLength : ℚ) / 6 / 2) :=
      mul_nonneg (by linarith) (by positivity)
    rw [if_neg (not_lt.mpr hnn),
      show (dotList syn0 syn1Neg + 6) * ((expLength : ℚ) / 6 / 2)
        = (dotList syn0 syn1Neg + 6) * (expLength : ℚ) / 12 from by ring]

/-- Witness for C2: a concrete middle-case input (dot = -6) updates
with g = (code - expTable[0]) * alpha. -/
theorem claim_C2_witness :
    negativeSampling 1 0 1 [1/2] ⟨[-6], [1], [0]⟩
      = some (nsAxpy ((((0 : ℤ) : ℚ) - 1/2) * 1) ⟨[-6], [1], [0]⟩) := by
  refine (claim_C2 1 0 1 [1/2] [-6] [1] [0] 1 rfl rfl rfl).2.2.2.1 (1/2)
    ?_ ?_ ?_ ?_
  · norm_num [dotList]
  · norm_num [dotList]
  · norm_num [dotList, expIndex, truncQ]
  · norm_num [dotList, expIndex, truncQ]

/-- For a non-saturated dot product the bucket index is nonnegative:
dot + 6 is nonnegative before the index is formed. -/
lemma expIndex_nonneg (expLength : ℕ) (dot : ℚ) (h : -6 ≤ dot) :
    0 ≤ expIndex expLength dot := by
  unfold expIndex truncQ
  have harg : 0 ≤ (dot + 6) * ((expLength : ℚ) / 6 / 2) := by
    apply mul_nonneg
    · linarith
    · positivity
  rw [if_neg (not_lt.mpr harg)]
  exact Int.floor_nonneg.mpr harg

/-- C9: whenever the HierarchicSoftmax or NegativeSampling kernel reads
expTable, the bucket index satisfies 0 <= idx < expLength, so with a
table of length expLength the Option-valued table access never takes
the out-of-bounds branch: both kernels always return some. -/
theorem claim_C9 (expLength : ℕ) (code : ℤ) (alpha : ℚ)
    (expTable : List ℚ) (s : HSRow) (t : NSRow)
    (hlen : expTable.length = expLength) (hpos : 0 < expLength) :
    (hierarchicSoftmax expLength code alpha expTable s).isSome
    ∧ (negativeSampling expLength code alpha expTable t).isSome := by
  constructor
  · unfold hierarchicSoftmax
    dsimp only
    split_ifs with hc1 hc2
    · rfl
    · rfl
    · rw [Option.isSome_map']
      have hge : -6 ≤ dotList s.syn0 s.syn1 := by
        push_neg at hc1
        linarith [hc1.1]
      have h0 := expIndex_nonneg expLength (dotList s.syn0 s.syn1) hge
      have hlt := lt_of_not_le hc2
      rw [List.getElem?_eq_getElem (by omega)]
      rfl
  · unfold negativeSampling
    dsimp only
    split_ifs with hc1 hc2 hc3
    · rfl
    · rfl
    · rfl
    · rw [Option.isSome_map']
      have hge : -6 ≤ dotList t.syn0 t.syn1Neg := le_of_not_lt hc2
      have h0 := expIndex_nonneg expLength (dotList t.syn0 t.syn1Neg) hge
      have hlt := lt_of_not_le hc3
      rw [List.getElem?_eq_getElem (by omega)]
      rfl

/-- Witness for C9: both kernels return some on a concrete in-range
input. -/
theorem claim_C9_witness :
    (hierarchicSoftmax 1 0 1 [1/2] ⟨[0], [0], [0]⟩).isSome
    ∧ (negativeSampling 1 0 1 [1/2] ⟨[0], [0], [0]⟩).isSome :=
  claim_C9 1 0 1 [1/2] ⟨[0], [0], [0]⟩ ⟨[0], [0], [0]⟩ rfl (by norm_num)

/-- C10: the NegativeSampling kernel is asymmetric at the saturation
boundaries under exact arithmetic: dot = 6 falls into the middle table
case, computes idx = expLength and returns with no update, while
dot = -6 also takes the middle case but computes idx = 0 and applies a
full update with g = (code - expTable[0]) * alpha. -/
theorem claim_C10 (expLength : ℕ) (code : ℤ) (alpha : ℚ)
    (expTable : List ℚ) (syn0 syn1Neg neu1e : List ℚ) :
    (dotList syn0 syn1Neg = 6 →
      expIndex expLength (dotList syn0 syn1Neg) = expLength
      ∧ negativeSampling expLength code alpha expTable ⟨syn0, syn1Neg, neu1e⟩
          = some ⟨syn0, syn1Neg, neu1e⟩)
    ∧ (∀ f, dotList syn0 syn1Neg = -6 → 0 < expLength →
        expTable[0]? = some f →
        expIndex expLength (dotList syn0 syn1Neg) = 0
        ∧ negativeSampling expLength code alpha expTable ⟨syn0, syn1Neg, neu1e⟩
            = some (nsAxpy (((code : ℚ) - f) * alpha)
                ⟨syn0, syn1Neg, neu1e⟩)) := by
  constructor
  · intro h
    have hidx : expIndex expLength (dotList syn0 syn1Neg) = expLength := by
      rw [h]
      unfold expIndex truncQ
      have harg : ((6 : ℚ) + 6) * ((expLength : ℚ) / 6 / 2)
          = (expLength : ℚ) := by ring
      rw [harg, if_neg (not_lt.mpr (by positivity))]
      exact Int.floor_natCast expLength
    refine ⟨hidx, ?_⟩
    unfold negativeSampling
    dsimp only
    rw [h]
    rw [if_neg (by norm_num), if_neg (by norm_num)]
    rw [if_pos ?_]
    rw [← h]
    exact le_of_eq hidx.symm
  · intro f h hpos hf
    have hidx : expIndex expLength (dotList syn0 syn1Neg) = 0 := by
      rw [h]
      unfold expIndex truncQ
      have harg : ((-6 : ℚ) + 6) * ((expLength : ℚ) / 6 / 2) = 0 := by ring
      rw [harg, if_neg (by norm_num)]
      exact Int.floor_zero
    refine ⟨hidx, ?_⟩
    unfold negativeSampling
    dsimp only
    rw [if_neg (by rw [h]; norm_num), if_neg (by rw [h]; norm_num)]
    rw [if_neg (by rw [hidx]; exact not_le.mpr (by exact_mod_cast hpos))]
    rw [hidx]
    simp only [Int.toNat_zero, hf, Option.map_some']

/-- Witness for C10: the two boundary inputs evaluated concretely. -/
theorem claim_C10_witness :
    negativeSampling 1 0 1 [1/2] ⟨[6], [1], [0]⟩ = some ⟨[6], [1], [0]⟩
    ∧ negativeSampling 1 0 1 [1/2] ⟨[-6], [1], [0]⟩
        = some (nsAxpy ((((0 : ℤ) : ℚ) - 1/2) * 1) ⟨[-6], [1], [0]⟩) :=
  ⟨((claim_C10 1 0 1 [1/2] [6] [1] [0]).1 (by norm_num [dotList])).2,
   ((claim_C10 1 0 1 [1/2] [-6] [1] [0]).2 (1/2) (by norm_num [dotList])
      (by norm_num) (by simp)).2⟩

/-- C6: a CBOW invocation with an empty context window leaves neu1 as
the zero vector after the summing and averaging phase; the division by
idxSyn0Length is skipped (guarded by idxSyn0Length > 0), so no division
by zero is performed. -/
theorem claim_C6 (p : CBOWParams) (syn0 : List (List ℚ))
    (h : p.idxSyn0Length = 0) :
    cbowNeu1 p syn0 = List.replicate p.vectorLength 0 := by
  unfold cbowNeu1
  dsimp only
  rw [h]
  rfl

/-- Witness for C6: a concrete empty-window CBOW parameter set. -/
theorem claim_C6_witness :
    cbowNeu1 ⟨2, 0, 0, 1, 2, 0, 1, 0, 0, [], [], [], 1, 0⟩ [[1, 1]]
      = List.replicate 2 0 :=
  claim_C6 ⟨2, 0, 0, 1, 2, 0, 1, 0, 0, [], [], [], 1, 0⟩ [[1, 1]] rfl

/-- C7: a SkipGram invocation with hsRounds = 0 and ngRounds = 0 leaves
syn0, syn1 and syn1Neg entirely unchanged: the accumulated gradient is
the zero vector and the single final add contributes zero to the center
row. -/
theorem claim_C7 (expTable negTable : List ℚ) (p : SkipGramParams)
    (s : AggState) (hhs : p.hsRounds = 0) (hng : p.ngRounds = 0)
    (hrow : p.syn0Row < s.syn0.length)
    (hlen : (getRow s.syn0 p.syn0Row).length = p.vectorLength) :
    skipGram expTable negTable p s = some s := by
  unfold skipGram sgHsLoop sgNgLoop
  rw [hhs, hng]
  simp only [lt_irrefl, if_false]
  have h1 : List.zipWith (fun x y => x + y) (getRow s.syn0 p.syn0Row)
      (List.replicate p.vectorLength 0) = getRow s.syn0 p.syn0Row := by
    rw [← hlen]
    exact zipWith_add_replicate_zero _
  simp only [Option.some_bind, Option.map_some']
  rw [h1, setRow_getRow_self _ _ hrow]

/-- Witness for C7: a concrete zero-round SkipGram invocation returns
its input state. -/
theorem claim_C7_witness :
    skipGram [] [] ⟨0, 1, 0, 0, 1, 1, 0, 1, [], [], 1, 0⟩
      ⟨[[5]], [[0]], [[0]]⟩ = some ⟨[[5]], [[0]], [[0]]⟩ :=
  claim_C7 [] [] ⟨0, 1, 0, 0, 1, 1, 0, 1, [], [], 1, 0⟩
    ⟨[[5]], [[0]], [[0]]⟩ rfl rfl (by norm_num) rfl

/-- The advanced random state of a draw is one LCG step. -/
lemma ngDraw_fst (negTable : List ℚ) (vocabSize negTableLength nr : ℕ) :
    (ngDraw negTable vocabSize negTableLength nr).1 = lcgNext nr := rfl

/-- Unfolding of the draw sequence at a successor length. -/
lemma ngDrawSeq_succ (negTable : List ℚ) (vocabSize negTableLength nr n : ℕ) :
    ngDrawSeq negTable vocabSize negTableLength nr (n + 1)
      = (ngDraw negTable vocabSize negTableLength nr).2
        :: ngDrawSeq negTable vocabSize negTableLength
            (ngDraw negTable vocabSize negTableLength nr).1 n := rfl

/-- Round 0 of the SkipGram negative-sampling loop: no draw, no random
advance, one code-1 invocation on the running target. -/
lemma sgNgStep_zero (expTable negTable : List ℚ) (p : SkipGramParams)
    (acc b : SgNgAcc) (h : sgNgStep expTable negTable p acc 0 = some b) :
    b.state.syn0 = acc.state.syn0 ∧ b.state.syn1 = acc.state.syn1
    ∧ b.next_random = acc.next_random ∧ b.target = acc.target
    ∧ b.drawn = acc.drawn
    ∧ b.invocations = acc.invocations ++ [(1, acc.target)] := by
  unfold sgNgStep at h
  rw [if_pos rfl] at h
  rcases Option.map_eq_some'.mp h with ⟨out, _, hb⟩
  subst hb
  exact ⟨rfl, rfl, rfl, rfl, rfl, rfl⟩

/-- A round r >= 1 of the SkipGram negative-sampling loop: one draw,
one random advance, and either a skipped collision or one code-0
invocation on a candidate different from ngStarter. -/
lemma sgNgStep_succ (expTable negTable : List ℚ) (p : SkipGramParams)
    (acc b : SgNgAcc) (r : ℕ) (hr : r ≠ 0)
    (h : sgNgStep expTable negTable p acc r = some b) :
    b.state.syn0 = acc.state.syn0 ∧ b.state.syn1 = acc.state.syn1
    ∧ b.next_random = lcgNext acc.next_random
    ∧ b.drawn = acc.drawn
        ++ [(ngDraw negTable p.vocabSize p.negTableLength acc.next_random).2]
    ∧ (b.invocations = acc.invocations
        ∨ (b.invocations = acc.invocations
              ++ [(0, (ngDraw negTable p.vocabSize p.negTableLength
                    acc.next_random).2)]
            ∧ (ngDraw negTable p.vocabSize p.negTableLength
                acc.next_random).2 ≠ p.ngStarter)) := by
  unfold sgNgStep at h
  rw [if_neg hr] at h
  dsimp only at h
  split_ifs at h with hcol
  · injection h with hb
    subst hb
    exact ⟨rfl, rfl, rfl, rfl, Or.inl rfl⟩
  · rcases Option.map_eq_some'.mp h with ⟨out, _, hb⟩
    subst hb
    exact ⟨rfl, rfl, rfl, rfl, Or.inr ⟨rfl, hcol⟩⟩

/-- Invariant of a run of SkipGram negative-sampling rounds none of
which is round 0: syn0 and syn1 are untouched, the random state
advances once per round, the drawn trace extends by exactly the draw
sequence from the entry state, and every new invocation is a code-0
call on a drawn candidate different from ngStarter. -/
lemma sgNgRun_spec (expTable negTable : List ℚ) (p : SkipGramParams) :
    ∀ (rs : List ℕ) (acc b : SgNgAcc), (∀ r ∈ rs, r ≠ 0) →
    sgNgRun expTable negTable p acc rs = some b →
    b.state.syn0 = acc.state.syn0 ∧ b.state.syn1 = acc.state.syn1
    ∧ b.next_random = lcgNext^[rs.length] acc.next_random
    ∧ b.drawn = acc.drawn ++ ngDrawSeq negTable p.vocabSize
        p.negTableLength acc.next_random rs.length
    ∧ ∃ new, b.invocations = acc.invocations ++ new
        ∧ ∀ q ∈ new, q.1 = 0 ∧ q.2 ≠ p.ngStarter
            ∧ q.2 ∈ ngDrawSeq negTable p.vocabSize p.negTableLength
                acc.next_random rs.length := by
  intro rs
  induction rs with
  | nil =>
    intro acc b _ h
    unfold sgNgRun at h
    injection h with hb
    subst hb
    exact ⟨rfl, rfl, rfl, by simp [ngDrawSeq], [], by simp, by simp⟩
  | cons r rs ih =>
    intro acc b hne h
    unfold sgNgRun at h
    rcases Option.bind_eq_some.mp h with ⟨a, hstep, hrun⟩
    have hr : r ≠ 0 := hne r (List.mem_cons_self r rs)
    obtain ⟨hs0, hs1, hnr, hdrawn, hinv⟩ :=
      sgNgStep_succ expTable negTable p acc a r hr hstep
    obtain ⟨gs0, gs1, gnr, gdrawn, new, ginv, gq⟩ :=
      ih a b (fun x hx => hne x (List.mem_cons_of_mem r hx)) hrun
    have hseq : ngDrawSeq negTable p.vocabSize p.negTableLength
        acc.next_random (r :: rs).length
        = (ngDraw negTable p.vocabSize p.negTableLength acc.next_random).2
          :: ngDrawSeq negTable p.vocabSize p.negTableLength
              a.next_random rs.length := by
      rw [List.length_cons, ngDrawSeq_succ, ngDraw_fst, ← hnr]
    refine ⟨gs0.trans hs0, gs1.trans hs1, ?_, ?_, ?_⟩
    · rw [List.length_cons, Function.iterate_succ_apply, gnr, hnr]
    · rw [gdrawn, hdrawn, hseq, List.append_assoc]
      rfl
    · rcases hinv with hsame | ⟨happ, hne2⟩
      · refine ⟨new, by rw [ginv, hsame], ?_⟩
        intro q hq
        obtain ⟨q0, qne, qmem⟩ := gq q hq
        exact ⟨q0, qne, by rw [hseq]; exact List.mem_cons_of_mem _ qmem⟩
      · refine ⟨(0, (ngDraw negTable p.vocabSize p.negTableLength
            acc.next_random).2) :: new, ?_, ?_⟩
        · rw [ginv, happ, List.append_assoc]
          rfl
        · intro q hq
          rcases List.mem_cons.mp hq with hq1 | hq2
          · subst hq1
            exact ⟨rfl, hne2, by rw [hseq]; exact List.mem_cons_self _ _⟩
          · obtain ⟨q0, qne, qmem⟩ := gq q hq2
            exact ⟨q0, qne, by rw [hseq]; exact List.mem_cons_of_mem _ qmem⟩

/-- Every member of a mapped successor list is nonzero. -/
lemma mem_map_succ_ne_zero {l : List ℕ} {r : ℕ}
    (h : r ∈ l.map Nat.succ) : r ≠ 0 := by
  rcases List.mem_map.mp h with ⟨a, _, ha⟩
  omega

/-- Full specification of the SkipGram negative-sampling phase: syn0
and syn1 are untouched; the drawn trace is exactly the draw sequence of
ngRounds draws from the seed; with ngRounds > 0 the invocation trace
starts with the code-1 call on ngStarter and continues with code-0
calls on drawn candidates different from ngStarter; with ngRounds = 0
there is no invocation at all. -/
lemma sgNgLoop_spec (expTable negTable : List ℚ) (p : SkipGramParams)
    (s : AggState) (neu1e : List ℚ) (b : SgNgAcc)
    (h : sgNgLoop expTable negTable p s neu1e = some b) :
    b.state.syn0 = s.syn0 ∧ b.state.syn1 = s.syn1
    ∧ b.drawn = ngDrawSeq negTable p.vocabSize p.negTableLength
        p.seed p.ngRounds
    ∧ ((0 < p.ngRounds
          ∧ ∃ rest, b.invocations = (1, p.ngStarter) :: rest
              ∧ ∀ q ∈ rest, q.1 = 0 ∧ q.2 ≠ p.ngStarter ∧ q.2 ∈ b.drawn)
        ∨ (p.ngRounds = 0 ∧ b.invocations = [])) := by
  unfold sgNgLoop at h
  split_ifs at h with hng
  · rw [List.range_succ_eq_map] at h
    unfold sgNgRun at h
    rcases Option.bind_eq_some.mp h with ⟨a, hstep, hrun⟩
    obtain ⟨z0, z1, znr, ztg, zdr, zinv⟩ :=
      sgNgStep_zero expTable negTable p _ a hstep
    obtain ⟨gs0, gs1, gnr, gdrawn, new, ginv, gq⟩ :=
      sgNgRun_spec expTable negTable p _ a b
        (fun r hr => mem_map_succ_ne_zero hr) hrun
    have hlen : ((List.range p.ngRounds).map Nat.succ).length
        = p.ngRounds := by
      rw [List.length_map, List.length_range]
    have hdr : b.drawn = ngDrawSeq negTable p.vocabSize p.negTableLength
        p.seed p.ngRounds := by
      rw [gdrawn, zdr, znr, hlen]
      rfl
    refine ⟨gs0.trans z0, gs1.trans z1, hdr, Or.inl ⟨hng, new, ?_, ?_⟩⟩
    · rw [ginv, zinv]
      rfl
    · intro q hq
      obtain ⟨q0, qne, qmem⟩ := gq q hq
      refine ⟨q0, qne, ?_⟩
      rw [hdr]
      rw [znr, hlen] at qmem
      exact qmem
  · injection h with hb
    subst hb
    have hz : p.ngRounds = 0 := Nat.eq_zero_of_not_pos hng
    rw [hz]
    exact ⟨rfl, rfl, rfl, Or.inr ⟨rfl, rfl⟩⟩

/-- The SkipGram hierarchical-softmax rounds never touch syn0 or
syn1Neg. -/
lemma sgHsRun_spec (expTable : List ℚ) (p : SkipGramParams) :
    ∀ (rs : List ℕ) (acc b : AggState × List ℚ),
    sgHsRun expTable p acc rs = some b →
    b.1.syn0 = acc.1.syn0 ∧ b.1.syn1Neg = acc.1.syn1Neg := by
  intro rs
  induction rs with
  | nil =>
    intro acc b h
    unfold sgHsRun at h
    injection h with hb
    subst hb
    exact ⟨rfl, rfl⟩
  | cons r rs ih =>
    intro acc b h
    unfold sgHsRun at h
    rcases Option.bind_eq_some.mp h with ⟨a, hstep, hrun⟩
    obtain ⟨g0, g1⟩ := ih a b hrun
    unfold sgHsStep at hstep
    rcases Option.map_eq_some'.mp hstep with ⟨out, _, hb⟩
    subst hb
    exact ⟨g0, g1⟩

/-- The SkipGram hierarchical-softmax phase never touches syn0 or
syn1Neg. -/
lemma sgHsLoop_spec (expTable : List ℚ) (p : SkipGramParams)
    (s : AggState) (neu1e : List ℚ) (b : AggState × List ℚ)
    (h : sgHsLoop expTable p s neu1e = some b) :
    b.1.syn0 = s.syn0 ∧ b.1.syn1Neg = s.syn1Neg := by
  unfold sgHsLoop at h
  split_ifs at h with hhs
  · exact sgHsRun_spec expTable p _ _ b h
  · injection h with hb
    subst hb
    exact ⟨rfl, rfl⟩

/-- A small concrete SkipGram parameter set used by witnesses: center
row 0, vector length 1, no hierarchical softmax, one negative round,
expLength 1, vocabulary 3, ngStarter 2, seed 0. -/
def sgP : SkipGramParams :=
  ⟨0, 1, 0, 1, 1, 3, 2, 1, [], [], 1, 0⟩

/-- A small concrete all-zero state used by witnesses. -/
def sgS : AggState :=
  ⟨[[0], [0], [0]], [[0], [0], [0]], [[0], [0], [0]]⟩

/-- Concrete evaluation of the witness negative-sampling loop: round 0
invokes on ngStarter = 2 with code 1, round 1 draws candidate 1 (after
lcg step 0 to 11) and invokes with code 0. -/
lemma sgNgLoop_eval :
    sgNgLoop [1/2] [1] sgP sgS [0]
      = some ⟨sgS, [0], 11, 1, [1], [(1, 2), (0, 1)]⟩ := by
  have h0 : sgNgStep [1/2] [1] sgP ⟨sgS, [0], 0, 2, [], []⟩ 0
      = some ⟨sgS, [0], 0, 2, [], [(1, 2)]⟩ := by
    simp only [sgP, sgS, sgNgStep, negativeSampling, nsAxpy, dotList,
      expIndex, truncQ, getRow, setRow, show ((2 : ℤ)).toNat = 2 from rfl]
    norm_num
  have h1 : sgNgStep [1/2] [1] sgP ⟨sgS, [0], 0, 2, [], [(1, 2)]⟩ 1
      = some ⟨sgS, [0], 11, 1, [1], [(1, 2), (0, 1)]⟩ := by
    simp only [sgP, sgS, sgNgStep, negativeSampling, nsAxpy, dotList,
      expIndex, truncQ, getRow, setRow, ngDraw, lcgNext,
      Nat.shiftRight_eq_div_pow, show ((1 : ℤ)).toNat = 1 from rfl]
    norm_num
  unfold sgNgLoop
  rw [if_pos (by norm_num [sgP])]
  rw [show List.range (sgP.ngRounds + 1) = [0, 1] from by
    simp [sgP, List.range_succ]]
  simp only [show sgP.seed = 0 from rfl, show sgP.ngStarter = 2 from rfl,
    sgNgRun]
  rw [h0]
  simp only [Option.some_bind]
  rw [h1]
  simp only [Option.some_bind]

/-- Concrete evaluation of the witness SkipGram invocation: the all-zero
state is a fixed point. -/
lemma skipGram_eval : skipGram [1/2] [1] sgP sgS = some sgS := by
  have hhs : sgHsLoop [1/2] sgP sgS [0] = some (sgS, [0]) := by
    unfold sgHsLoop
    rw [if_neg (by norm_num [sgP])]
  unfold skipGram
  dsimp only
  rw [show List.replicate sgP.vectorLength (0 : ℚ) = [0] from rfl]
  rw [hhs]
  simp only [Option.some_bind]
  rw [sgNgLoop_eval]
  simp only [Option.map_some']
  norm_num [sgS, sgP, getRow, setRow]

/-- C3: in a sequential SkipGram invocation with ngRounds > 0, the
negative-sampling loop invokes the kernel first on ngStarter with
code 1; every later invocation has code 0, and the drawn candidates are
exactly the ngRounds-step draw sequence (each step advancing
next_random by the LCG, mapping through negTable with the in-range
fallback); and after all rounds the accumulator neu1e is added into the
center syn0 row exactly once (syn0 is touched nowhere else). -/
theorem claim_C3 (expTable negTable : List ℚ) (p : SkipGramParams)
    (s : AggState) (neu1e : List ℚ) (hng : 0 < p.ngRounds) :
    (∀ b, sgNgLoop expTable negTable p s neu1e = some b →
      b.invocations.head? = some (1, p.ngStarter)
      ∧ b.drawn = ngDrawSeq negTable p.vocabSize p.negTableLength
          p.seed p.ngRounds
      ∧ ∀ q ∈ b.invocations.tail, q.1 = 0)
    ∧ (∀ s₂, skipGram expTable negTable p s = some s₂ →
        ∃ e, s₂.syn0 = setRow s.syn0 p.syn0Row
          (List.zipWith (fun x y => x + y) (getRow s.syn0 p.syn0Row) e)) := by
  constructor
  · intro b hb
    obtain ⟨_, _, hdr, hinv⟩ := sgNgLoop_spec expTable negTable p s neu1e b hb
    rcases hinv with ⟨_, rest, hrest, hq⟩ | ⟨hz, _⟩
    · refine ⟨by rw [hrest]; rfl, hdr, ?_⟩
      intro q hq2
      rw [hrest] at hq2
      exact (hq q hq2).1
    · omega
  · intro s₂ h
    unfold skipGram at h
    dsimp only at h
    rcases Option.bind_eq_some.mp h with ⟨a, hhs, hng2⟩
    rcases Option.map_eq_some'.mp hng2 with ⟨b, hngl, hb⟩
    obtain ⟨ha0, _⟩ := sgHsLoop_spec expTable p s _ a hhs
    obtain ⟨hb0, _, _, _⟩ := sgNgLoop_spec expTable negTable p a.1 a.2 b hngl
    refine ⟨b.neu1e, ?_⟩
    rw [← hb]
    dsimp only
    rw [hb0, ha0]

/-- Witness for C3: the concrete loop trace starts with the code-1 call
on ngStarter = 2 and the concrete SkipGram run writes the center row
once. -/
theorem claim_C3_witness :
    ([((1 : ℤ), (2 : ℤ)), (0, 1)].head? = some (1, 2)
      ∧ ([1] : List ℤ) = ngDrawSeq [1] 3 1 0 1
      ∧ ∀ q ∈ [((1 : ℤ), (2 : ℤ)), (0, 1)].tail, q.1 = 0)
    ∧ ∃ e, sgS.syn0 = setRow sgS.syn0 0
        (List.zipWith (fun x y => x + y) (getRow sgS.syn0 0) e) := by
  have h := claim_C3 [1/2] [1] sgP sgS [0] (by norm_num [sgP])
  constructor
  · exact h.1 ⟨sgS, [0], 11, 1, [1], [(1, 2), (0, 1)]⟩ sgNgLoop_eval
  · exact h.2 sgS skipGram_eval

/-- Round 0 of the CBOW negative-sampling loop: no draw, no random
advance, one code-1 invocation on the running target. -/
lemma cbowNgStep_zero (expTable negTable : List ℚ) (p : CBOWParams)
    (acc b : CbAcc) (h : cbowNgStep expTable negTable p acc 0 = some b) :
    b.state.syn0 = acc.state.syn0 ∧ b.state.syn1 = acc.state.syn1
    ∧ b.next_random = acc.next_random ∧ b.target = acc.target
    ∧ b.drawn = acc.drawn
    ∧ b.invocations = acc.invocations ++ [(1, acc.target)] := by
  unfold cbowNgStep at h
  rw [if_pos rfl] at h
  rcases Option.map_eq_some'.mp h with ⟨out, _, hb⟩
  subst hb
  exact ⟨rfl, rfl, rfl, rfl, rfl, rfl⟩

/-- A round i >= 1 of the CBOW negative-sampling loop: one draw, one
random advance, and either a skipped collision or one code-0 invocation
on a candidate different from ngStarter. -/
lemma cbowNgStep_succ (expTable negTable : List ℚ) (p : CBOWParams)
    (acc b : CbAcc) (i : ℕ) (hi : i ≠ 0)
    (h : cbowNgStep expTable negTable p acc i = some b) :
    b.state.syn0 = acc.state.syn0 ∧ b.state.syn1 = acc.state.syn1
    ∧ b.next_random = lcgNext acc.next_random
    ∧ b.drawn = acc.drawn
        ++ [(ngDraw negTable p.vocabSize p.negTableLength acc.next_random).2]
    ∧ (b.invocations = acc.invocations
        ∨ (b.invocations = acc.invocations
              ++ [(0, (ngDraw negTable p.vocabSize p.negTableLength
                    acc.next_random).2)]
            ∧ (ngDraw negTable p.vocabSize p.negTableLength
                acc.next_random).2 ≠ p.ngStarter)) := by
  unfold cbowNgStep at h
  rw [if_neg hi] at h
  dsimp only at h
  split_ifs at h with hcol
  · injection h with hb
    subst hb
    exact ⟨rfl, rfl, rfl, rfl, Or.inl rfl⟩
  · rcases Option.map_eq_some'.mp h with ⟨out, _, hb⟩
    subst hb
    exact ⟨rfl, rfl, rfl, rfl, Or.inr ⟨rfl, hcol⟩⟩

/-- Invariant of a run of CBOW negative-sampling rounds none of which
is round 0, mirroring the SkipGram invariant. -/
lemma cbowNgRun_spec (expTable negTable : List ℚ) (p : CBOWParams) :
    ∀ (rs : List ℕ) (acc b : CbAcc), (∀ r ∈ rs, r ≠ 0) →
    cbowNgRun expTable negTable p acc rs = some b →
    b.state.syn0 = acc.state.syn0 ∧ b.state.syn1 = acc.state.syn1
    ∧ b.next_random = lcgNext^[rs.length] acc.next_random
    ∧ b.drawn = acc.drawn ++ ngDrawSeq negTable p.vocabSize
        p.negTableLength acc.next_random rs.length
    ∧ ∃ new, b.invocations = acc.invocations ++ new
        ∧ ∀ q ∈ new, q.1 = 0 ∧ q.2 ≠ p.ngStarter
            ∧ q.2 ∈ ngDrawSeq negTable p.vocabSize p.negTableLength
                acc.next_random rs.length := by
  intro rs
  induction rs with
  | nil =>
    intro acc b _ h
    unfold cbowNgRun at h
    injection h with hb
    subst hb
    exact ⟨rfl, rfl, rfl, by simp [ngDrawSeq], [], by simp, by simp⟩
  | cons r rs ih =>
    intro acc b hne h
    unfold cbowNgRun at h
    rcases Option.bind_eq_some.mp h with ⟨a, hstep, hrun⟩
    have hr : r ≠ 0 := hne r (List.mem_cons_self r rs)
    obtain ⟨hs0, hs1, hnr, hdrawn, hinv⟩ :=
      cbowNgStep_succ expTable negTable p acc a r hr hstep
    obtain ⟨gs0, gs1, gnr, gdrawn, new, ginv, gq⟩ :=
      ih a b (fun x hx => hne x (List.mem_cons_of_mem r hx)) hrun
    have hseq : ngDrawSeq negTable p.vocabSize p.negTableLength
        acc.next_random (r :: rs).length
        = (ngDraw negTable p.vocabSize p.negTableLength acc.next_random).2
          :: ngDrawSeq negTable p.vocabSize p.negTableLength
              a.next_random rs.length := by
      rw [List.length_cons, ngDrawSeq_succ, ngDraw_fst, ← hnr]
    refine ⟨gs0.trans hs0, gs1.trans hs1, ?_, ?_, ?_⟩
    · rw [List.length_cons, Function.iterate_succ_apply, gnr, hnr]
    · rw [gdrawn, hdrawn, hseq, List.append_assoc]
      rfl
    · rcases hinv with hsame | ⟨happ, hne2⟩
      · refine ⟨new, by rw [ginv, hsame], ?_⟩
        intro q hq
        obtain ⟨q0, qne, qmem⟩ := gq q hq
        exact ⟨q0, qne, by rw [hseq]; exact List.mem_cons_of_mem _ qmem⟩
      · refine ⟨(0, (ngDraw negTable p.vocabSize p.negTableLength
            acc.next_random).2) :: new, ?_, ?_⟩
        · rw [ginv, happ, List.append_assoc]
          rfl
        · intro q hq
          rcases List.mem_cons.mp hq with hq1 | hq2
          · subst hq1
            exact ⟨rfl, hne2, by rw [hseq]; exact List.mem_cons_self _ _⟩
          · obtain ⟨q0, qne, qmem⟩ := gq q hq2
            exact ⟨q0, qne, by rw [hseq]; exact List.mem_cons_of_mem _ qmem⟩

/-- Full specification of the CBOW negative-sampling phase relative to
its entry accumulator. -/
lemma cbowNgLoop_spec (expTable negTable : List ℚ) (p : CBOWParams)
    (acc b : CbAcc) (h : cbowNgLoop expTable negTable p acc = some b) :
    b.state.syn0 = acc.state.syn0 ∧ b.state.syn1 = acc.state.syn1
    ∧ b.drawn = acc.drawn ++ ngDrawSeq negTable p.vocabSize
        p.negTableLength acc.next_random p.ngRounds
    ∧ ((0 < p.ngRounds
          ∧ ∃ rest, b.invocations = acc.invocations ++ (1, acc.target) :: rest
              ∧ ∀ q ∈ rest, q.1 = 0 ∧ q.2 ≠ p.ngStarter
                  ∧ q.2 ∈ ngDrawSeq negTable p.vocabSize p.negTableLength
                      acc.next_random p.ngRounds)
        ∨ (p.ngRounds = 0 ∧ b.invocations = acc.invocations)) := by
  unfold cbowNgLoop at h
  split_ifs at h with hng
  · rw [List.range_succ_eq_map] at h
    unfold cbowNgRun at h
    rcases Option.bind_eq_some.mp h with ⟨a, hstep, hrun⟩
    obtain ⟨z0, z1, znr, ztg, zdr, zinv⟩ :=
      cbowNgStep_zero expTable negTable p _ a hstep
    obtain ⟨gs0, gs1, gnr, gdrawn, new, ginv, gq⟩ :=
      cbowNgRun_spec expTable negTable p _ a b
        (fun r hr => mem_map_succ_ne_zero hr) hrun
    have hlen : ((List.range p.ngRounds).map Nat.succ).length
        = p.ngRounds := by
      rw [List.length_map, List.length_range]
    have hdr : b.drawn = acc.drawn ++ ngDrawSeq negTable p.vocabSize
        p.negTableLength acc.next_random p.ngRounds := by
      rw [gdrawn, zdr, znr, hlen]
    refine ⟨gs0.trans z0, gs1.trans z1, hdr, Or.inl ⟨hng, new, ?_, ?_⟩⟩
    · rw [ginv, zinv, List.append_assoc]
      rfl
    · intro q hq
      obtain ⟨q0, qne, qmem⟩ := gq q hq
      refine ⟨q0, qne, ?_⟩
      rw [znr, hlen] at qmem
      exact qmem
  · injection h with hb
    subst hb
    have hz : p.ngRounds = 0 := Nat.eq_zero_of_not_pos hng
    rw [hz]
    exact ⟨rfl, rfl, by simp [ngDrawSeq], Or.inr ⟨rfl, rfl⟩⟩

/-- The CBOW hierarchical-softmax rounds never touch syn0 or syn1Neg,
and do not touch the random state, target or traces. -/
lemma cbowHsRun_spec (expTable : List ℚ) (p : CBOWParams) :
    ∀ (rs : List ℕ) (acc b : CbAcc),
    cbowHsRun expTable p acc rs = some b →
    b.state.syn0 = acc.state.syn0 ∧ b.state.syn1Neg = acc.state.syn1Neg
    ∧ b.next_random = acc.next_random ∧ b.target = acc.target
    ∧ b.drawn = acc.drawn ∧ b.invocations = acc.invocations := by
  intro rs
  induction rs with
  | nil =>
    intro acc b h
    unfold cbowHsRun at h
    injection h with hb
    subst hb
    exact ⟨rfl, rfl, rfl, rfl, rfl, rfl⟩
  | cons r rs ih =>
    intro acc b h
    unfold cbowHsRun at h
    rcases Option.bind_eq_some.mp h with ⟨a, hstep, hrun⟩
    obtain ⟨g0, g1, g2, g3, g4, g5⟩ := ih a b hrun
    unfold cbowHsStep at hstep
    rcases Option.map_eq_some'.mp hstep with ⟨out, _, hb⟩
    subst hb
    exact ⟨g0, g1, g2, g3, g4, g5⟩

/-- The CBOW hierarchical-softmax phase never touches syn0 or syn1Neg,
and does not touch the random state, target or traces. -/
lemma cbowHsLoop_spec (expTable : List ℚ) (p : CBOWParams)
    (acc b : CbAcc) (h : cbowHsLoop expTable p acc = some b) :
    b.state.syn0 = acc.state.syn0 ∧ b.state.syn1Neg = acc.state.syn1Neg
    ∧ b.next_random = acc.next_random ∧ b.target = acc.target
    ∧ b.drawn = acc.drawn ∧ b.invocations = acc.invocations := by
  unfold cbowHsLoop at h
  split_ifs at h with hhs
  · exact cbowHsRun_spec expTable p _ acc b h
  · injection h with hb
    subst hb
    exact ⟨rfl, rfl, rfl, rfl, rfl, rfl⟩

/-- The draw sequence has exactly one candidate per round. -/
lemma ngDrawSeq_length (negTable : List ℚ) (vocabSize negTableLength : ℕ) :
    ∀ (n nr : ℕ),
    (ngDrawSeq negTable vocabSize negTableLength nr n).length = n := by
  intro n
  induction n with
  | zero => intro nr; rfl
  | succ n ih => intro nr; rw [ngDrawSeq_succ, List.length_cons, ih]

/-- A small concrete CBOW parameter set used by witnesses: vector
length 1, one context word (row 0), no hierarchical softmax, one
negative round, expLength 1, vocabulary 3, ngStarter 2, seed 0. -/
def cbP : CBOWParams :=
  ⟨1, 0, 1, 1, 3, 2, 1, 1, 0, [0], [], [], 1, 0⟩

/-- Concrete evaluation of the witness CBOW negative-sampling loop,
mirroring the SkipGram witness loop. -/
lemma cbowNgLoop_eval :
    cbowNgLoop [1/2] [1] cbP ⟨sgS, [0], [0], 0, 2, [], []⟩
      = some ⟨sgS, [0], [0], 11, 1, [1], [(1, 2), (0, 1)]⟩ := by
  have h0 : cbowNgStep [1/2] [1] cbP ⟨sgS, [0], [0], 0, 2, [], []⟩ 0
      = some ⟨sgS, [0], [0], 0, 2, [], [(1, 2)]⟩ := by
    simp only [cbP, sgS, cbowNgStep, negativeSampling, nsAxpy, dotList,
      expIndex, truncQ, getRow, setRow, show ((2 : ℤ)).toNat = 2 from rfl]
    norm_num
  have h1 : cbowNgStep [1/2] [1] cbP ⟨sgS, [0], [0], 0, 2, [], [(1, 2)]⟩ 1
      = some ⟨sgS, [0], [0], 11, 1, [1], [(1, 2), (0, 1)]⟩ := by
    simp only [cbP, sgS, cbowNgStep, negativeSampling, nsAxpy, dotList,
      expIndex, truncQ, getRow, setRow, ngDraw, lcgNext,
      Nat.shiftRight_eq_div_pow, show ((1 : ℤ)).toNat = 1 from rfl]
    norm_num
  unfold cbowNgLoop
  rw [if_pos (by norm_num [cbP])]
  rw [show List.range (cbP.ngRounds + 1) = [0, 1] from by
    simp [cbP, List.range_succ]]
  simp only [cbowNgRun]
  rw [h0]
  simp only [Option.some_bind]
  rw [h1]
  simp only [Option.some_bind]

/-- C5: in the SkipGram and CBOW sequential negative-sampling loops a
drawn candidate equal to ngStarter is discarded: no NegativeSampling
invocation with code 0 ever has target ngStarter, and the collision
does not shorten the loop — every one of the ngRounds draw slots still
produces its draw (the drawn trace has length exactly ngRounds). -/
theorem claim_C5 (expTable negTable : List ℚ) :
    (∀ (p : SkipGramParams) (s : AggState) (neu1e : List ℚ) (b : SgNgAcc),
      sgNgLoop expTable negTable p s neu1e = some b →
      (∀ q ∈ b.invocations, q.1 = 0 → q.2 ≠ p.ngStarter)
      ∧ b.drawn.length = p.ngRounds)
    ∧ (∀ (p : CBOWParams) (acc b : CbAcc), acc.drawn = [] →
      acc.invocations = [] →
      cbowNgLoop expTable negTable p acc = some b →
      (∀ q ∈ b.invocations, q.1 = 0 → q.2 ≠ p.ngStarter)
      ∧ b.drawn.length = p.ngRounds) := by
  constructor
  · intro p s neu1e b hb
    obtain ⟨_, _, hdr, hinv⟩ := sgNgLoop_spec expTable negTable p s neu1e b hb
    refine ⟨?_, by rw [hdr, ngDrawSeq_length]⟩
    intro q hq hq0
    rcases hinv with ⟨_, rest, hrest, hprops⟩ | ⟨_, hnil⟩
    · rw [hrest] at hq
      rcases List.mem_cons.mp hq with hq1 | hq2
      · subst hq1
        exact absurd hq0 (by norm_num)
      · exact (hprops q hq2).2.1
    · rw [hnil] at hq
      exact absurd hq (List.not_mem_nil q)
  · intro p acc b hd hi hb
    obtain ⟨_, _, hdr, hinv⟩ := cbowNgLoop_spec expTable negTable p acc b hb
    refine ⟨?_, by rw [hdr, hd, List.nil_append, ngDrawSeq_length]⟩
    intro q hq hq0
    rcases hinv with ⟨_, rest, hrest, hprops⟩ | ⟨_, hsame⟩
    · rw [hrest, hi] at hq
      rcases List.mem_cons.mp hq with hq1 | hq2
      · subst hq1
        exact absurd hq0 (by norm_num)
      · exact (hprops q hq2).2.1
    · rw [hsame, hi] at hq
      exact absurd hq (List.not_mem_nil q)

/-- Witness for C5: the concrete SkipGram and CBOW witness loops never
invoke the kernel with a code-0 target equal to ngStarter = 2, and the
single round produces exactly one draw. -/
theorem claim_C5_witness :
    ((∀ q ∈ [((1 : ℤ), (2 : ℤ)), (0, 1)], q.1 = 0 → q.2 ≠ sgP.ngStarter)
      ∧ ([1] : List ℤ).length = sgP.ngRounds)
    ∧ (∀ q ∈ [((1 : ℤ), (2 : ℤ)), (0, 1)], q.1 = 0 → q.2 ≠ cbP.ngStarter)
      ∧ ([1] : List ℤ).length = cbP.ngRounds := by
  constructor
  · exact (claim_C5 [1/2] [1]).1 sgP sgS [0]
      ⟨sgS, [0], 11, 1, [1], [(1, 2), (0, 1)]⟩ sgNgLoop_eval
  · exact (claim_C5 [1/2] [1]).2 cbP ⟨sgS, [0], [0], 0, 2, [], []⟩
      ⟨sgS, [0], [0], 11, 1, [1], [(1, 2), (0, 1)]⟩ rfl rfl cbowNgLoop_eval

/-- C8: the negative-sampling draw sequence is deterministic.  The
drawn candidates of a successful SkipGram or CBOW negative-sampling
phase are exactly the pure draw sequence of the seed, the tables and
the round count — independent of the matrices, the sigmoid table and
the learning rate — so two sequential runs with the same seed and round
count produce bit-identical draw sequences. -/
theorem claim_C8 (expTable expTable₂ negTable : List ℚ) :
    (∀ (p q : SkipGramParams) (s₁ s₂ : AggState) (v₁ v₂ : List ℚ)
        (b₁ b₂ : SgNgAcc),
      p.vocabSize = q.vocabSize → p.negTableLength = q.negTableLength →
      p.seed = q.seed → p.ngRounds = q.ngRounds →
      sgNgLoop expTable negTable p s₁ v₁ = some b₁ →
      sgNgLoop expTable₂ negTable q s₂ v₂ = some b₂ →
      b₁.drawn = b₂.drawn)
    ∧ (∀ (p q : CBOWParams) (a₁ a₂ b₁ b₂ : CbAcc),
      p.vocabSize = q.vocabSize → p.negTableLength = q.negTableLength →
      a₁.next_random = a₂.next_random → a₁.drawn = [] → a₂.drawn = [] →
      p.ngRounds = q.ngRounds →
      cbowNgLoop expTable negTable p a₁ = some b₁ →
      cbowNgLoop expTable₂ negTable q a₂ = some b₂ →
      b₁.drawn = b₂.drawn) := by
  constructor
  · intro p q s₁ s₂ v₁ v₂ b₁ b₂ hv hl hs hr h1 h2
    obtain ⟨_, _, hd1, _⟩ := sgNgLoop_spec expTable negTable p s₁ v₁ b₁ h1
    obtain ⟨_, _, hd2, _⟩ := sgNgLoop_spec expTable₂ negTable q s₂ v₂ b₂ h2
    rw [hd1, hd2, hv, hl, hs, hr]
  · intro p q a₁ a₂ b₁ b₂ hv hl hs hda hdb hr h1 h2
    obtain ⟨_, _, hd1, _⟩ := cbowNgLoop_spec expTable negTable p a₁ b₁ h1
    obtain ⟨_, _, hd2, _⟩ := cbowNgLoop_spec expTable₂ negTable q a₂ b₂ h2
    rw [hd1, hd2, hda, hdb, hv, hl, hs, hr]

/-- Witness for C8: two concrete runs (one SkipGram, one CBOW, with the
same seed 0 and one round) produce the same drawn sequence. -/
theorem claim_C8_witness :
    (([1] : List ℤ) = [1]) ∧ (([1] : List ℤ) = [1]) := by
  constructor
  · exact (claim_C8 [1/2] [1/2] [1]).1 sgP sgP sgS sgS [0] [0]
      ⟨sgS, [0], 11, 1, [1], [(1, 2), (0, 1)]⟩
      ⟨sgS, [0], 11, 1, [1], [(1, 2), (0, 1)]⟩
      rfl rfl rfl rfl sgNgLoop_eval sgNgLoop_eval
  · exact (claim_C8 [1/2] [1/2] [1]).2 cbP cbP
      ⟨sgS, [0], [0], 0, 2, [], []⟩ ⟨sgS, [0], [0], 0, 2, [], []⟩
      ⟨sgS, [0], [0], 11, 1, [1], [(1, 2), (0, 1)]⟩
      ⟨sgS, [0], [0], 11, 1, [1], [(1, 2), (0, 1)]⟩
      rfl rfl rfl rfl rfl rfl cbowNgLoop_eval cbowNgLoop_eval

/-- Reading the row just written returns the written row. -/
lemma getRow_setRow_self (m : List (List ℚ)) (i : ℕ) (r : List ℚ)
    (h : i < m.length) : getRow (setRow m i r) i = r := by
  rw [getRow, setRow, List.getD_eq_getElem?_getD, List.getElem?_set_self h]
  rfl

/-- Writing one row leaves every other row unchanged. -/
lemma getRow_setRow_ne (m : List (List ℚ)) (i j : ℕ) (r : List ℚ)
    (h : i ≠ j) : getRow (setRow m i r) j = getRow m j := by
  rw [getRow, setRow, List.getD_eq_getElem?_getD, List.getElem?_set_ne h,
    getRow, List.getD_eq_getElem?_getD]

/-- The scatter fold over a duplicate-free, in-bounds index list adds e
to exactly the listed rows and leaves every other row unchanged. -/
lemma scatter_foldl_rows (e : List ℚ) :
    ∀ (L : List ℕ) (m : List (List ℚ)), L.Nodup →
    (∀ j ∈ L, j < m.length) →
    (∀ j ∈ L, getRow (L.foldl (fun m i =>
          setRow m i (List.zipWith (fun a b => a + b) (getRow m i) e)) m) j
        = List.zipWith (fun a b => a + b) (getRow m j) e)
    ∧ (∀ j, j ∉ L → getRow (L.foldl (fun m i =>
          setRow m i (List.zipWith (fun a b => a + b) (getRow m i) e)) m) j
        = getRow m j) := by
  intro L
  induction L with
  | nil => simp
  | cons k L ih =>
    intro m hnd hbd
    have hkm : k < m.length := hbd k (List.mem_cons_self k L)
    have hknotin : k ∉ L := (List.nodup_cons.mp hnd).1
    have hnd' : L.Nodup := (List.nodup_cons.mp hnd).2
    have hbd' : ∀ j ∈ L, j < (setRow m k
        (List.zipWith (fun a b => a + b) (getRow m k) e)).length := by
      intro j hj
      rw [setRow, List.length_set]
      exact hbd j (List.mem_cons_of_mem k hj)
    obtain ⟨ih1, ih2⟩ := ih _ hnd' hbd'
    constructor
    · intro j hj
      rw [List.foldl_cons]
      rcases List.mem_cons.mp hj with hjk | hj2
      · subst hjk
        rw [ih2 j hknotin, getRow_setRow_self m j _ hkm]
      · have hjk : k ≠ j := by
          intro hh
          exact hknotin (hh ▸ hj2)
        rw [ih1 j hj2, getRow_setRow_ne m k j _ hjk]
    · intro j hj
      have hjk : k ≠ j := by
        intro hh
        exact hj (hh ▸ List.mem_cons_self k L)
      have hjL : j ∉ L := fun hh => hj (List.mem_cons_of_mem k hh)
      rw [List.foldl_cons, ih2 j hjL, getRow_setRow_ne m k j _ hjk]

/-- The CBOW scatter phase is the scatter fold over the used index
list. -/
lemma cbowPropagate_eq_foldl (p : CBOWParams) (m : List (List ℚ))
    (e : List ℚ) :
    cbowPropagate p m e = (cbowIdxList p).foldl (fun m i =>
      setRow m i (List.zipWith (fun a b => a + b) (getRow m i) e)) m := by
  unfold cbowPropagate cbowIdxList
  rw [List.foldl_map]

/-- C4: after all rounds a sequential CBOW invocation adds the
accumulated gradient neu1e into every context-word row of syn0 listed
in idxSyn0 (all idxSyn0Length of them, assumed distinct and in range),
and into no other row — in particular not into a single center row. -/
theorem claim_C4 (expTable negTable : List ℚ) (p : CBOWParams)
    (s s₂ : AggState) (hnodup : (cbowIdxList p).Nodup)
    (hbound : ∀ j ∈ cbowIdxList p, j < s.syn0.length)
    (h : cbow expTable negTable p s = some s₂) :
    ∃ e, (∀ j ∈ cbowIdxList p,
        getRow s₂.syn0 j = List.zipWith (fun a b => a + b) (getRow s.syn0 j) e)
      ∧ ∀ j, j ∉ cbowIdxList p → getRow s₂.syn0 j = getRow s.syn0 j := by
  unfold cbow at h
  dsimp only at h
  rcases Option.bind_eq_some.mp h with ⟨a, hhs, h2⟩
  rcases Option.map_eq_some'.mp h2 with ⟨b, hngl, hb⟩
  obtain ⟨ha0, _, _, _, _, _⟩ := cbowHsLoop_spec expTable p _ a hhs
  obtain ⟨hb0, _, _, _⟩ := cbowNgLoop_spec expTable negTable p a b hngl
  have hsyn0 : b.state.syn0 = s.syn0 := hb0.trans ha0
  have hs2 : s₂.syn0 = cbowPropagate p s.syn0 b.neu1e := by
    rw [← hb]
    dsimp only
    rw [hsyn0]
  obtain ⟨h1, h2'⟩ := scatter_foldl_rows b.neu1e (cbowIdxList p) s.syn0
    hnodup hbound
  refine ⟨b.neu1e, ?_, ?_⟩
  · intro j hj
    rw [hs2, cbowPropagate_eq_foldl]
    exact h1 j hj
  · intro j hj
    rw [hs2, cbowPropagate_eq_foldl]
    exact h2' j hj

/-- Concrete evaluation of the witness CBOW invocation: the all-zero
state is a fixed point. -/
lemma cbow_eval : cbow [1/2] [1] cbP sgS = some sgS := by
  have hneu1 : cbowNeu1 cbP sgS.syn0 = [0] := by
    simp only [cbowNeu1, cbP, sgS, getRow]
    norm_num [List.range_succ]
  have hhs : cbowHsLoop [1/2] cbP ⟨sgS, [0], [0], 0, 2, [], []⟩
      = some ⟨sgS, [0], [0], 0, 2, [], []⟩ := by
    unfold cbowHsLoop
    rw [if_neg (by norm_num [cbP])]
  unfold cbow
  dsimp only
  rw [show List.replicate cbP.vectorLength (0 : ℚ) = [0] from rfl, hneu1]
  rw [show cbP.seed = 0 from rfl, show cbP.ngStarter = 2 from rfl]
  rw [hhs]
  simp only [Option.some_bind]
  rw [cbowNgLoop_eval]
  simp only [Option.map_some']
  have hprop : cbowPropagate cbP sgS.syn0 [0] = sgS.syn0 := by
    simp only [cbowPropagate, cbP, sgS, getRow, setRow]
    norm_num [List.range_succ]
  rw [hprop]

/-- Witness for C4: the concrete CBOW run adds its gradient to the
single context row 0 and leaves rows 1 and 2 unchanged. -/
theorem claim_C4_witness :
    ∃ e, (∀ j ∈ cbowIdxList cbP,
        getRow sgS.syn0 j
          = List.zipWith (fun a b => a + b) (getRow sgS.syn0 j) e)
      ∧ ∀ j, j ∉ cbowIdxList cbP → getRow sgS.syn0 j = getRow sgS.syn0 j :=
  claim_C4 [1/2] [1] cbP sgS sgS (by decide)
    (by
      intro j hj
      rw [show cbowIdxList cbP = [0] from rfl] at hj
      obtain rfl := List.mem_singleton.mp hj
      norm_num [sgS]) cbow_eval
